import Mathlib

/-!
Verification of the commit-history cache and diff-reconstruction core of
`ma-git-viewer` (Rust backend, `src/backend/src/git/{cache.rs,diff.rs}` and
`src/backend/src/models`), as a shallow embedding in Lean.

External capabilities of the underlying revision store (libgit2 revwalk,
tree-to-tree diffing, patch extraction, the process clock and the on-disk
working tree) are passed to the embedded functions as explicit data; the
Rust code of the repository itself is translated function by function.
-/

namespace MaGitViewer

/-! ## Data model (src/backend/src/models) -/

/-- Embeds `AuthorInfo` from models/commit.rs. -/
structure AuthorInfo where
  name : String
  email : String
deriving Repr, DecidableEq, Inhabited

/-- Embeds `ContributorInfo` from models/tree.rs. -/
structure ContributorInfo where
  name : String
  email : String
  commit_count : Nat
deriving Repr, DecidableEq, Inhabited

/-- Embeds `CommitDetail` from models/commit.rs. -/
structure CommitDetail where
  oid : String
  message : String
  author : AuthorInfo
  committer : AuthorInfo
  timestamp : Int
  relative_time : String
  parent_count : Nat
  parents : List String
deriving Repr, DecidableEq, Inhabited

/-- Embeds `CommitListResponse` from models/commit.rs. -/
structure CommitListResponse where
  commits : List CommitDetail
  total : Nat
  filtered_total : Nat
  has_more : Bool
  contributors : List AuthorInfo
deriving Repr, DecidableEq, Inhabited

/-! ## Commit cache (src/backend/src/git/cache.rs) -/

/-- Embeds `CachedCommit` from cache.rs. -/
structure CachedCommit where
  oid : String
  message : String
  author_name : String
  author_email : String
  committer_name : String
  committer_email : String
  timestamp : Int
  parent_count : Nat
  parents : List String
deriving Repr, DecidableEq, Inhabited

/-- Embeds `PathCache` from cache.rs: indices into `all_commits` plus the
contributor aggregate computed at index-build time. -/
structure PathCache where
  commit_indices : List Nat
  contributors : List ContributorInfo
deriving Repr, DecidableEq, Inhabited

/-- Embeds `CommitCache` from cache.rs.  The `path_cache` HashMap is modelled
as an association list; `created_at : Instant` is modelled as a clock tick. -/
structure CommitCache where
  all_commits : List CachedCommit
  path_cache : List (String × PathCache)
  head_oid : String
  created_at : Nat
deriving Repr, DecidableEq, Inhabited

/-- Embeds `format_relative_time` from repository.rs; the ambient clock read
`chrono::Utc::now().timestamp()` is the explicit first argument.  Rust `i64`
division truncates toward zero, hence `Int.tdiv`. -/
def formatRelativeTime (now timestamp : Int) : String :=
  let diff := now - timestamp
  if diff < 60 then "just now"
  else if diff < 3600 then
    let mins := diff.tdiv 60
    toString mins ++ " minute" ++ (if mins = 1 then "" else "s") ++ " ago"
  else if diff < 86400 then
    let hours := diff.tdiv 3600
    toString hours ++ " hour" ++ (if hours = 1 then "" else "s") ++ " ago"
  else if diff < 2592000 then
    let days := diff.tdiv 86400
    toString days ++ " day" ++ (if days = 1 then "" else "s") ++ " ago"
  else if diff < 31536000 then
    let months := diff.tdiv 2592000
    toString months ++ " month" ++ (if months = 1 then "" else "s") ++ " ago"
  else
    let years := diff.tdiv 31536000
    toString years ++ " year" ++ (if years = 1 then "" else "s") ++ " ago"

/-- Embeds `CachedCommit::to_commit_detail` from cache.rs (the clock read made
explicit through `now`). -/
def CachedCommit.to_commit_detail (c : CachedCommit) (now : Int) : CommitDetail :=
  { oid := c.oid
    message := c.message
    author := { name := c.author_name, email := c.author_email }
    committer := { name := c.committer_name, email := c.committer_email }
    timestamp := c.timestamp
    relative_time := formatRelativeTime now c.timestamp
    parent_count := c.parent_count
    parents := c.parents }

/-- One step of the contributor-map update in cache.rs
(`contributor_map.entry(email).and_modify(count += 1).or_insert((name, 1))`),
with the HashMap modelled as an association list keyed by email. -/
def bumpContributor : List (String × String × Nat) → String → String → List (String × String × Nat)
  | [], email, name => [(email, name, 1)]
  | (e, n, c) :: rest, email, name =>
    if e = email then (e, n, c + 1) :: rest
    else (e, n, c) :: bumpContributor rest email name

/-- Ordering used by `contributors.sort_by(|a, b| b.commit_count.cmp(&a.commit_count))`
in cache.rs: descending commit count. -/
def contribCountGE (a b : ContributorInfo) : Prop :=
  b.commit_count ≤ a.commit_count

instance : DecidableRel contribCountGE := fun a b =>
  inferInstanceAs (Decidable (b.commit_count ≤ a.commit_count))

instance : IsTotal ContributorInfo contribCountGE :=
  ⟨fun a b => Nat.le_total b.commit_count a.commit_count⟩

instance : IsTrans ContributorInfo contribCountGE :=
  ⟨fun _ _ _ h1 h2 => Nat.le_trans h2 h1⟩

/-- Embeds `CommitCache::build_root_path_cache` from cache.rs: the identity
index `(0..len).collect()` plus the whole-history contributor aggregate. -/
def CommitCache.build_root_path_cache (all_commits : List CachedCommit) : PathCache :=
  let commit_indices := List.range all_commits.length
  let contributor_map :=
    all_commits.foldl (fun m c => bumpContributor m c.author_email c.author_name) []
  let contributors :=
    List.insertionSort contribCountGE
      (contributor_map.map fun p => ContributorInfo.mk p.2.1 p.1 p.2.2)
  { commit_indices, contributors }

/-- Raw per-revision data read off the store during the history walk in
`CommitCache::build`; `message`, names and emails are `Option` because the
libgit2 accessors return options (`unwrap_or` defaults applied in `build`). -/
structure WalkedCommit where
  oid : String
  message : Option String
  author_name : Option String
  author_email : Option String
  committer_name : Option String
  committer_email : Option String
  time : Int
  parents : List String
deriving Repr, DecidableEq, Inhabited

/-- Embeds `CommitCache::build` from cache.rs.  The revwalk output (the store
is an external capability) is the explicit `walk` argument; the head
resolution result is `head_oid`; `now` stands for `Instant::now()`. -/
def CommitCache.build (now : Nat) (walk : List WalkedCommit) (head_oid : String) : CommitCache :=
  let all_commits : List CachedCommit := walk.map fun w =>
    { oid := w.oid
      message := (w.message.getD "").trim
      author_name := w.author_name.getD "Unknown"
      author_email := w.author_email.getD ""
      committer_name := w.committer_name.getD "Unknown"
      committer_email := w.committer_email.getD ""
      timestamp := w.time
      parent_count := w.parents.length
      parents := w.parents }
  let root_cache := CommitCache.build_root_path_cache all_commits
  { all_commits
    path_cache := [("", root_cache)]
    head_oid
    created_at := now }

/-- Embeds `CommitCache::is_valid` from cache.rs: the
`repo.head().and_then(|h| h.peel_to_commit())` resolution outcome is passed as
an `Option` (`none` for any resolution failure). -/
def CommitCache.is_valid (cc : CommitCache) (resolved_head : Option String) : Bool :=
  match resolved_head with
  | some head_id => head_id == cc.head_oid
  | none => false

/-- Embeds `CommitCache::query_commits` from cache.rs.  The `HashSet` of
excluded author emails is modelled by the underlying list (membership and
emptiness agree); `now` is the clock read inside `format_relative_time`. -/
def CommitCache.query_commits (cc : CommitCache) (now : Int) (path_cache : PathCache)
    (limit offset : Nat) (exclude_authors : Option (List String)) : CommitListResponse :=
  let exclude_set : List String := exclude_authors.getD []
  let total := path_cache.commit_indices.length
  let filtered_indices : List Nat :=
    if exclude_set.isEmpty then path_cache.commit_indices
    else path_cache.commit_indices.filter fun idx =>
      !(exclude_set.contains (cc.all_commits.getD idx default).author_email)
  let filtered_total := filtered_indices.length
  let commits : List CommitDetail :=
    ((filtered_indices.drop offset).take limit).map fun idx =>
      (cc.all_commits.getD idx default).to_commit_detail now
  let contributors : List AuthorInfo :=
    path_cache.contributors.map fun c => { name := c.name, email := c.email }
  { commits
    total
    filtered_total
    has_more := decide (filtered_total > offset + limit)
    contributors }

/-- A path index is well formed for a cache when all its entries are in-bound
indices into `all_commits`; every index produced by the builders satisfies
this. -/
def PathIndexWF (cc : CommitCache) (pc : PathCache) : Prop :=
  ∀ i ∈ pc.commit_indices, i < cc.all_commits.length

instance (cc : CommitCache) (pc : PathCache) : Decidable (PathIndexWF cc pc) :=
  inferInstanceAs (Decidable (∀ i ∈ pc.commit_indices, i < cc.all_commits.length))

/-! ## Helper lemmas -/

/-- Filtering by the negation of `p` keeps `length - countP p` elements. -/
theorem length_filter_not {α : Type} (p : α → Bool) (l : List α) :
    (l.filter fun a => !(p a)).length = l.length - l.countP p := by
  induction l with
  | nil => simp
  | cons a l ih =>
    have hle := List.countP_le_length (p := p) (l := l)
    by_cases h : p a <;> simp [List.filter_cons, h, ih, List.countP_cons] <;> omega

/-! ## Concrete sample data used by witnesses -/

def sampleCommit : CachedCommit :=
  { oid := "abc123", message := "init", author_name := "Alice", author_email := "alice@x"
    committer_name := "Alice", committer_email := "alice@x", timestamp := 100
    parent_count := 0, parents := [] }

def sampleCache : CommitCache :=
  { all_commits := [sampleCommit], path_cache := [], head_oid := "abc123", created_at := 0 }

def samplePathCache : PathCache :=
  { commit_indices := [0], contributors := [{ name := "Alice", email := "alice@x", commit_count := 1 }] }

def sampleWalk : List WalkedCommit :=
  [{ oid := "b", message := some "second", author_name := some "Bob", author_email := some "bob@x"
     committer_name := some "Bob", committer_email := some "bob@x", time := 7, parents := ["a"] },
   { oid := "a", message := some "first", author_name := some "Alice", author_email := some "alice@x"
     committer_name := some "Alice", committer_email := some "alice@x", time := 3, parents := [] }]

/-! ## Claim theorems: commit cache -/

/-- C1: for every built path index, author-exclusion set, offset and limit,
`query_commits` returns `has_more = (filtered_total > offset + limit)`, and
whenever `offset ≥ filtered_total` the returned page is empty and `has_more`
is false. -/
theorem query_has_more_pagination (cc : CommitCache) (pc : PathCache) (now : Int)
    (limit offset : Nat) (ex : Option (List String)) (_hwf : PathIndexWF cc pc) :
    ((cc.query_commits now pc limit offset ex).has_more
      = decide ((cc.query_commits now pc limit offset ex).filtered_total > offset + limit))
    ∧ (offset ≥ (cc.query_commits now pc limit offset ex).filtered_total →
        (cc.query_commits now pc limit offset ex).commits = []
        ∧ (cc.query_commits now pc limit offset ex).has_more = false) := by
  refine ⟨rfl, fun h => ⟨?_, ?_⟩⟩
  · simp only [CommitCache.query_commits] at h ⊢
    rw [List.drop_eq_nil_of_le h, List.take_nil, List.map_nil]
  · simp only [CommitCache.query_commits, gt_iff_lt, decide_eq_false_iff_not, Nat.not_lt] at h ⊢
    omega

/-- Witness for C1 at a concrete cache and index with offset 5 past the
single filtered entry: empty page, `has_more = false`. -/
theorem query_has_more_pagination_witness :
    PathIndexWF sampleCache samplePathCache
    ∧ ((sampleCache.query_commits 0 samplePathCache 2 5 none).commits = []
      ∧ (sampleCache.query_commits 0 samplePathCache 2 5 none).has_more = false) :=
  ⟨by decide,
   (query_has_more_pagination sampleCache samplePathCache 0 2 5 none (by decide)).2 (by decide)⟩

/-- C2: `total` is the index size before filtering and `filtered_total` is
`total` minus the number of indexed revisions whose author email is in the
exclusion set. -/
theorem query_filtered_total_count (cc : CommitCache) (pc : PathCache) (now : Int)
    (limit offset : Nat) (ex : Option (List String)) (_hwf : PathIndexWF cc pc) :
    ((cc.query_commits now pc limit offset ex).total = pc.commit_indices.length)
    ∧ ((cc.query_commits now pc limit offset ex).filtered_total
        = (cc.query_commits now pc limit offset ex).total
          - pc.commit_indices.countP
              (fun idx => (ex.getD []).contains (cc.all_commits.getD idx default).author_email)) := by
  refine ⟨rfl, ?_⟩
  simp only [CommitCache.query_commits]
  by_cases he : (ex.getD []).isEmpty
  · have : (ex.getD []) = [] := List.isEmpty_iff.mp he
    simp [he, this]
  · simp [he, length_filter_not]

/-- Witness for C2: one of two indexed commits is authored by the excluded
email. -/
theorem query_filtered_total_count_witness :
    ((sampleCache.query_commits 0 samplePathCache 10 0 (some ["alice@x"])).total
      = samplePathCache.commit_indices.length)
    ∧ ((sampleCache.query_commits 0 samplePathCache 10 0 (some ["alice@x"])).filtered_total
        = (sampleCache.query_commits 0 samplePathCache 10 0 (some ["alice@x"])).total
          - samplePathCache.commit_indices.countP
              (fun idx => ((some ["alice@x"] : Option (List String)).getD []).contains
                  (sampleCache.all_commits.getD idx default).author_email)) :=
  query_filtered_total_count sampleCache samplePathCache 0 10 0 (some ["alice@x"]) (by decide)

/-- C3: for a fixed built path index, the contributor list returned by
`query_commits` does not depend on the exclusion set, offset or limit: it is
always the per-path aggregate stored in the index at build time. -/
theorem query_contributors_independent (cc : CommitCache) (pc : PathCache)
    (now1 now2 : Int) (l1 o1 l2 o2 : Nat) (e1 e2 : Option (List String)) :
    ((cc.query_commits now1 pc l1 o1 e1).contributors
      = (cc.query_commits now2 pc l2 o2 e2).contributors)
    ∧ ((cc.query_commits now1 pc l1 o1 e1).contributors
      = pc.contributors.map fun c => AuthorInfo.mk c.name c.email) :=
  ⟨rfl, rfl⟩

/-- C4: the staleness guard reports the snapshot invalid exactly when the
resolved current head is not the captured head id (any resolution failure,
modelled as `none`, counts as invalid). -/
theorem is_valid_false_iff (cc : CommitCache) (resolved : Option String) :
    cc.is_valid resolved = false ↔ resolved ≠ some cc.head_oid := by
  cases resolved <;> simp [CommitCache.is_valid]

/-- C5: the snapshot built by `CommitCache::build` is pre-populated with the
root (empty-string) path index, which is the identity index over the
snapshot: it is exactly `build_root_path_cache` of the captured commits, its
entries are `0, 1, ..., n-1`, its size is the snapshot size, and its `i`-th
entry is `i`. -/
theorem build_root_index_identity (now : Nat) (walk : List WalkedCommit) (head : String) :
    ((CommitCache.build now walk head).path_cache.lookup ""
      = some (CommitCache.build_root_path_cache (CommitCache.build now walk head).all_commits))
    ∧ ((CommitCache.build_root_path_cache (CommitCache.build now walk head).all_commits).commit_indices
      = List.range (CommitCache.build now walk head).all_commits.length)
    ∧ ((CommitCache.build_root_path_cache (CommitCache.build now walk head).all_commits).commit_indices.length
      = (CommitCache.build now walk head).all_commits.length)
    ∧ ∀ i, i < (CommitCache.build now walk head).all_commits.length →
        (CommitCache.build_root_path_cache (CommitCache.build now walk head).all_commits).commit_indices.getD i 0 = i := by
  refine ⟨rfl, rfl, by simp [CommitCache.build_root_path_cache], fun i hi => ?_⟩
  simp only [CommitCache.build_root_path_cache]
  rw [List.getD_eq_getElem _ _ (by simpa using hi)]
  simp

/-- Witness for C5 at a concrete two-commit walk, checking the entry at
position 1. -/
theorem build_root_index_identity_witness :
    ((CommitCache.build 0 sampleWalk "b").path_cache.lookup ""
      = some (CommitCache.build_root_path_cache (CommitCache.build 0 sampleWalk "b").all_commits))
    ∧ ((CommitCache.build_root_path_cache (CommitCache.build 0 sampleWalk "b").all_commits).commit_indices
      = List.range (CommitCache.build 0 sampleWalk "b").all_commits.length)
    ∧ ((CommitCache.build_root_path_cache (CommitCache.build 0 sampleWalk "b").all_commits).commit_indices.length
      = (CommitCache.build 0 sampleWalk "b").all_commits.length)
    ∧ (CommitCache.build_root_path_cache (CommitCache.build 0 sampleWalk "b").all_commits).commit_indices.getD 1 0 = 1 := by
  have h := build_root_index_identity 0 sampleWalk "b"
  exact ⟨h.1, h.2.1, h.2.2.1, h.2.2.2 1 (by decide)⟩

/-- C8: `CommitCache::build` captures the revisions in the walk order with
their timestamps, so when the store revwalk (an external capability the spec
describes as reverse-chronological) delivers non-increasing commit times, all
adjacent snapshot pairs satisfy `timestamp i ≥ timestamp (i+1)`. -/
theorem build_snapshot_timestamps_sorted (now : Nat) (walk : List WalkedCommit) (head : String)
    (hwalk : List.Chain' (fun a b => b.time ≤ a.time) walk) :
    List.Chain' (fun a b => b.timestamp ≤ a.timestamp)
      (CommitCache.build now walk head).all_commits := by
  simp only [CommitCache.build]
  rw [List.chain'_map]
  exact hwalk

/-- Witness for C8 at a concrete two-commit walk with times 7 then 3. -/
theorem build_snapshot_timestamps_sorted_witness :
    List.Chain' (fun a b => b.timestamp ≤ a.timestamp)
      (CommitCache.build 0 sampleWalk "b").all_commits :=
  build_snapshot_timestamps_sorted 0 sampleWalk "b" (by
    simp [sampleWalk, List.chain'_cons])

/-! ## Diff data model (src/backend/src/models/diff.rs) -/

/-- Embeds `FileAuthorInfo` from models/diff.rs. -/
structure FileAuthorInfo where
  email : String
  name : String
  commit_count : Nat
  last_commit_timestamp : Int
deriving Repr, DecidableEq, Inhabited

/-- Embeds `DiffStatus` from models/diff.rs. -/
inductive DiffStatus where
  | Added | Deleted | Modified | Renamed | Copied | TypeChanged | Unmodified
deriving Repr, DecidableEq, Inhabited

/-- Embeds `LineType` from models/diff.rs. -/
inductive LineType where
  | Context | Addition | Deletion | Header
deriving Repr, DecidableEq, Inhabited

/-- Embeds `DiffLine` from models/diff.rs. -/
structure DiffLine where
  line_type : LineType
  old_lineno : Option Nat
  new_lineno : Option Nat
  content : String
deriving Repr, DecidableEq, Inhabited

/-- Embeds `DiffHunk` from models/diff.rs. -/
structure DiffHunk where
  old_start : Nat
  old_lines : Nat
  new_start : Nat
  new_lines : Nat
  header : String
  lines : List DiffLine
deriving Repr, DecidableEq, Inhabited

/-- Embeds `DiffStats` from models/diff.rs (`Default` is all zeroes). -/
structure DiffStats where
  files_changed : Nat
  insertions : Nat
  deletions : Nat
deriving Repr, DecidableEq, Inhabited

/-- Embeds `FileDiff` from models/diff.rs. -/
structure FileDiff where
  old_path : Option String
  new_path : Option String
  status : DiffStatus
  hunks : List DiffHunk
  old_content : Option String
  new_content : Option String
  is_binary : Bool
  authors : List FileAuthorInfo
  biggest_change_author : Option String
deriving Repr, DecidableEq, Inhabited

/-- Embeds `DiffResponse` from models/diff.rs. -/
structure DiffResponse where
  from_commit : Option String
  to_commit : String
  path : Option String
  files : List FileDiff
  stats : DiffStats
  contributors : List AuthorInfo
  total_files : Nat
  filtered_files : Nat
deriving Repr, DecidableEq, Inhabited

/-- Embeds `AppError` variants from error.rs that diff.rs can produce. -/
inductive AppError where
  | CommitNotFound (s : String)
  | PathNotFound (s : String)
  | InvalidPath (s : String)
  | Internal (s : String)
deriving Repr, DecidableEq, Inhabited

/-! ## Store-side inputs of the diff reconstructor

The tree-to-tree diff, patch extraction and blob storage are capabilities of
the external revision store (libgit2); their results enter the embedded
functions as the following data. -/

/-- A git object reachable from a tree entry: a blob with raw bytes, or some
non-blob object. -/
inductive GitObject where
  | blob (bytes : List Nat)
  | nonBlob
deriving Repr, DecidableEq, Inhabited

/-- A store tree, exposing the `tree.get_path` lookup used by
`get_blob_content` (association list keyed by path). -/
structure GitTree where
  entries : List (String × GitObject)
deriving Repr, DecidableEq, Inhabited

/-- Delta status values of the external diff engine (`git2::Delta`).  The
constructors beyond the seven handled explicitly in diff.rs exercise its
wildcard arm. -/
inductive GitDelta where
  | added | deleted | modified | renamed | copied | typechange
  | unmodified | ignored | untracked | unreadable | conflicted
deriving Repr, DecidableEq, Inhabited

/-- One line of an external patch: origin character plus line numbers and
(lossily decoded) text content. -/
structure RawDiffLine where
  origin : Char
  old_lineno : Option Nat
  new_lineno : Option Nat
  content : String
deriving Repr, DecidableEq, Inhabited

/-- One hunk of an external patch. -/
structure RawHunk where
  old_start : Nat
  old_lines : Nat
  new_start : Nat
  new_lines : Nat
  header : String
  lines : List RawDiffLine
deriving Repr, DecidableEq, Inhabited

/-- One delta of the external tree-to-tree diff, with the patch that
`git2::Patch::from_diff` yields for it (`none` when no patch exists). -/
structure RawDelta where
  status : GitDelta
  old_path : Option String
  new_path : Option String
  is_binary : Bool
  patch : Option (List RawHunk)
deriving Repr, DecidableEq, Inhabited

/-! ## UTF-8 decoding (model of Rust `String::from_utf8`) -/

/-- A byte is a UTF-8 continuation byte (`0x80..0xBF`). -/
def utf8Cont (b : Nat) : Bool :=
  0x80 ≤ b && b < 0xC0

/-- Strict UTF-8 decoding of a byte sequence into code points, `none` on any
ill-formed input, mirroring the validation done by Rust
`String::from_utf8` (overlong encodings, surrogates and out-of-range code
points rejected). -/
def utf8DecodeLoop : List Nat → Option (List Char)
  | [] => some []
  | b :: rest =>
    if b < 0x80 then
      (utf8DecodeLoop rest).map (fun cs => Char.ofNat b :: cs)
    else if b < 0xC2 then none
    else if b < 0xE0 then
      match rest with
      | c1 :: r =>
        if utf8Cont c1 then
          (utf8DecodeLoop r).map (fun cs => Char.ofNat ((b - 0xC0) * 0x40 + (c1 - 0x80)) :: cs)
        else none
      | [] => none
    else if b < 0xF0 then
      match rest with
      | c1 :: c2 :: r =>
        let cp := (b - 0xE0) * 0x1000 + (c1 - 0x80) * 0x40 + (c2 - 0x80)
        if utf8Cont c1 && utf8Cont c2 && decide (0x800 ≤ cp)
            && !(decide (0xD800 ≤ cp) && decide (cp < 0xE000)) then
          (utf8DecodeLoop r).map (fun cs => Char.ofNat cp :: cs)
        else none
      | _ => none
    else if b < 0xF5 then
      match rest with
      | c1 :: c2 :: c3 :: r =>
        let cp := (b - 0xF0) * 0x40000 + (c1 - 0x80) * 0x1000 + (c2 - 0x80) * 0x40 + (c3 - 0x80)
        if utf8Cont c1 && utf8Cont c2 && utf8Cont c3 && decide (0x10000 ≤ cp)
            && decide (cp ≤ 0x10FFFF) then
          (utf8DecodeLoop r).map (fun cs => Char.ofNat cp :: cs)
        else none
      | _ => none
    else none

/-- Rust `String::from_utf8`: `some` of the decoded string exactly on valid
UTF-8 input. -/
def utf8Decode (bytes : List Nat) : Option String :=
  (utf8DecodeLoop bytes).map fun cs => String.mk cs

/-- Embeds `get_blob_content` from diff.rs: path lookup in the tree, blob
check, then strict UTF-8 decoding, with the same error classification. -/
def get_blob_content (tree : GitTree) (path : String) : Except AppError String :=
  match tree.entries.lookup path with
  | none => .error (.PathNotFound path)
  | some .nonBlob => .error (.InvalidPath (path ++ " is not a file"))
  | some (.blob bytes) =>
    match utf8Decode bytes with
    | some s => .ok s
    | none => .error (.Internal "File is not valid UTF-8")

/-! ## Diff reconstruction (src/backend/src/git/diff.rs) -/

/-- Status classification arm of the delta loops in diff.rs (both
`get_diff` and `get_working_tree_diff` use the identical `match`). -/
def classifyDelta : GitDelta → DiffStatus
  | .added => .Added
  | .deleted => .Deleted
  | .modified => .Modified
  | .renamed => .Renamed
  | .copied => .Copied
  | .typechange => .TypeChanged
  | _ => .Unmodified

/-- Per-line translation of the delta loops in diff.rs: classify the origin
character, tallying insertion/deletion counts into the running stats. -/
def processLine (stats : DiffStats) (l : RawDiffLine) : DiffStats × DiffLine :=
  if l.origin = '+' then
    ({ stats with insertions := stats.insertions + 1 },
     { line_type := .Addition, old_lineno := l.old_lineno, new_lineno := l.new_lineno, content := l.content })
  else if l.origin = '-' then
    ({ stats with deletions := stats.deletions + 1 },
     { line_type := .Deletion, old_lineno := l.old_lineno, new_lineno := l.new_lineno, content := l.content })
  else if l.origin = ' ' then
    (stats,
     { line_type := .Context, old_lineno := l.old_lineno, new_lineno := l.new_lineno, content := l.content })
  else
    (stats,
     { line_type := .Header, old_lineno := l.old_lineno, new_lineno := l.new_lineno, content := l.content })

/-- Folds `processLine` over the lines of one hunk in order. -/
def processLines : DiffStats → List RawDiffLine → DiffStats × List DiffLine
  | stats, [] => (stats, [])
  | stats, l :: ls =>
    let r1 := processLine stats l
    let r2 := processLines r1.1 ls
    (r2.1, r1.2 :: r2.2)

/-- Translates the hunk loop of the delta loops in diff.rs. -/
def processHunks : DiffStats → List RawHunk → DiffStats × List DiffHunk
  | stats, [] => (stats, [])
  | stats, h :: hs =>
    let r1 := processLines stats h.lines
    let r2 := processHunks r1.1 hs
    (r2.1,
     { old_start := h.old_start, old_lines := h.old_lines, new_start := h.new_start,
       new_lines := h.new_lines, header := h.header, lines := r1.2 } :: r2.2)

/-- One iteration of the delta loop of `get_diff` (diff.rs lines 71-166):
status classification, content fetch guarded by the binary flag with
`get_blob_content(..).ok()`, hunk translation, and the `files_changed`
increment. -/
def processDelta (from_tree : Option GitTree) (to_tree : GitTree)
    (stats : DiffStats) (d : RawDelta) : DiffStats × FileDiff :=
  let old_content : Option String :=
    if !d.is_binary then
      d.old_path.bind fun p => from_tree.bind fun tree => (get_blob_content tree p).toOption
    else none
  let new_content : Option String :=
    if !d.is_binary then
      d.new_path.bind fun p => (get_blob_content to_tree p).toOption
    else none
  let hr := match d.patch with
    | some hunks => processHunks stats hunks
    | none => (stats, [])
  ({ hr.1 with files_changed := hr.1.files_changed + 1 },
   { old_path := d.old_path, new_path := d.new_path, status := classifyDelta d.status,
     hunks := hr.2, old_content, new_content, is_binary := d.is_binary,
     authors := [], biggest_change_author := none })

/-- The delta loop of `get_diff`, threading the stats. -/
def processDeltas (from_tree : Option GitTree) (to_tree : GitTree) :
    DiffStats → List RawDelta → DiffStats × List FileDiff
  | stats, [] => (stats, [])
  | stats, d :: ds =>
    let r1 := processDelta from_tree to_tree stats d
    let r2 := processDeltas from_tree to_tree r1.1 ds
    (r2.1, r1.2 :: r2.2)

/-- One iteration of the delta loop of `get_working_tree_diff` (diff.rs lines
297-392): old content from the HEAD tree, new content from the on-disk
working directory (`std::fs::read_to_string(..).ok()`, modelled by the
`workdir` map). -/
def processDeltaWT (head_tree : GitTree) (workdir : String → Option String)
    (stats : DiffStats) (d : RawDelta) : DiffStats × FileDiff :=
  let old_content : Option String :=
    if !d.is_binary then
      d.old_path.bind fun p => (get_blob_content head_tree p).toOption
    else none
  let new_content : Option String :=
    if !d.is_binary then
      d.new_path.bind fun p => workdir p
    else none
  let hr := match d.patch with
    | some hunks => processHunks stats hunks
    | none => (stats, [])
  ({ hr.1 with files_changed := hr.1.files_changed + 1 },
   { old_path := d.old_path, new_path := d.new_path, status := classifyDelta d.status,
     hunks := hr.2, old_content, new_content, is_binary := d.is_binary,
     authors := [], biggest_change_author := none })

/-- The delta loop of `get_working_tree_diff`. -/
def processDeltasWT (head_tree : GitTree) (workdir : String → Option String) :
    DiffStats → List RawDelta → DiffStats × List FileDiff
  | stats, [] => (stats, [])
  | stats, d :: ds =>
    let r1 := processDeltaWT head_tree workdir stats d
    let r2 := processDeltasWT head_tree workdir r1.1 ds
    (r2.1, r1.2 :: r2.2)

/-- `HashMap::entry(..).or_insert_with(..)` on the `all_contributors` map of
`get_diff`, modelled on an association list keyed by email: insert only when
the key is absent. -/
def insertIfAbsent (m : List (String × AuthorInfo)) (email : String) (a : AuthorInfo) :
    List (String × AuthorInfo) :=
  if (m.lookup email).isSome then m else m ++ [(email, a)]

/-- The per-file enrichment step of `get_diff` (diff.rs lines 183-201): look
the file path up in the attribution map, install the author list and the top
author, and fold the authors into the contributor map. -/
def enrichFile (file_authors : List (String × List FileAuthorInfo))
    (contribs : List (String × AuthorInfo)) (f : FileDiff) :
    FileDiff × List (String × AuthorInfo) :=
  match f.new_path.or f.old_path with
  | some p =>
    match file_authors.lookup p with
    | some authors =>
      ({ f with authors := authors,
                biggest_change_author := authors.head?.map fun a => a.email },
       authors.foldl (fun acc a => insertIfAbsent acc a.email { name := a.name, email := a.email }) contribs)
    | none => (f, contribs)
  | none => (f, contribs)

/-- The enrichment loop of `get_diff` over all files, in file order. -/
def enrichFiles (file_authors : List (String × List FileAuthorInfo)) :
    List FileDiff → List (String × AuthorInfo) → List FileDiff × List (String × AuthorInfo)
  | [], contribs => ([], contribs)
  | f :: fs, contribs =>
    let r1 := enrichFile file_authors contribs f
    let r2 := enrichFiles file_authors fs r1.2
    (r1.1 :: r2.1, r2.2)

/-- Ordering used by `contributors.sort_by(|a, b| a.name.to_lowercase().cmp(..))`
in `get_diff`. -/
def contribNameLE (a b : AuthorInfo) : Prop :=
  a.name.toLower ≤ b.name.toLower

instance : DecidableRel contribNameLE := fun a b =>
  inferInstanceAs (Decidable (a.name.toLower ≤ b.name.toLower))

instance : IsTotal AuthorInfo contribNameLE :=
  ⟨fun a b => le_total a.name.toLower b.name.toLower⟩

instance : IsTrans AuthorInfo contribNameLE :=
  ⟨fun _ _ _ h1 h2 => le_trans h1 h2⟩

/-- Embeds the successful path of `GitRepository::get_diff` (diff.rs lines
68-218) from the point where the store has resolved the two trees, produced
the tree-to-tree diff (`deltas`) and the attribution walk has produced its
per-file author map (`file_authors`). -/
def getDiffCore (from_commit : Option String) (to_commit : String) (path : Option String)
    (from_tree : Option GitTree) (to_tree : GitTree) (deltas : List RawDelta)
    (file_authors : List (String × List FileAuthorInfo)) : DiffResponse :=
  let pr := processDeltas from_tree to_tree { files_changed := 0, insertions := 0, deletions := 0 } deltas
  let er := enrichFiles file_authors pr.2 []
  let contributors := List.insertionSort contribNameLE (er.2.map fun p => p.2)
  { from_commit, to_commit, path,
    files := er.1, stats := pr.1, contributors,
    total_files := er.1.length, filtered_files := er.1.length }

/-- Embeds the successful path of `GitRepository::get_working_tree_diff`
(diff.rs lines 262-407) from the point where HEAD is resolved (`head_oid`,
`head_tree`) and the store has produced the tree-to-workdir diff. -/
def getWorkingTreeDiffCore (head_oid : String) (path : Option String)
    (head_tree : GitTree) (workdir : String → Option String)
    (deltas : List RawDelta) : DiffResponse :=
  let pr := processDeltasWT head_tree workdir { files_changed := 0, insertions := 0, deletions := 0 } deltas
  { from_commit := some head_oid, to_commit := "WORKING_TREE", path,
    files := pr.2, stats := pr.1, contributors := [],
    total_files := pr.2.length, filtered_files := pr.2.length }

/-! ## Author attribution (src/backend/src/git/diff.rs, walker tail) -/

/-- Ordering used by the attribution sort in
`get_file_authors_between_commits` (diff.rs lines 521-524): commit count
descending, ties broken by last-touch timestamp descending. -/
def authorBefore (a b : FileAuthorInfo) : Prop :=
  b.commit_count < a.commit_count
  ∨ (a.commit_count = b.commit_count ∧ b.last_commit_timestamp ≤ a.last_commit_timestamp)

instance : DecidableRel authorBefore := fun a b =>
  inferInstanceAs (Decidable (_ ∨ _))

instance : IsTotal FileAuthorInfo authorBefore := by
  constructor
  intro a b
  unfold authorBefore
  rcases Nat.lt_trichotomy a.commit_count b.commit_count with h | h | h
  · exact Or.inr (Or.inl h)
  · rcases Int.le_total a.last_commit_timestamp b.last_commit_timestamp with ht | ht
    · exact Or.inr (Or.inr ⟨h.symm, ht⟩)
    · exact Or.inl (Or.inr ⟨h, ht⟩)
  · exact Or.inl (Or.inl h)

instance : IsTrans FileAuthorInfo authorBefore := by
  constructor
  intro a b c hab hbc
  unfold authorBefore at *
  rcases hab with h1 | ⟨h1, t1⟩ <;> rcases hbc with h2 | ⟨h2, t2⟩
  · exact Or.inl (Nat.lt_trans h2 h1)
  · exact Or.inl (h2 ▸ h1)
  · exact Or.inl (h1 ▸ h2)
  · exact Or.inr ⟨h1.trans h2, t2.trans t1⟩

/-- The sort applied to each per-file author list at the end of
`get_file_authors_between_commits` (stable sort with the Rust comparator). -/
def sortFileAuthors (authors : List FileAuthorInfo) : List FileAuthorInfo :=
  List.insertionSort authorBefore authors

/-- The final conversion loop of `get_file_authors_between_commits` (diff.rs
lines 507-527): every per-file author list is sorted with `sortFileAuthors`. -/
def finalizeFileAuthors (m : List (String × List FileAuthorInfo)) :
    List (String × List FileAuthorInfo) :=
  m.map fun p => (p.1, sortFileAuthors p.2)

/-! ## Helper lemmas for the delta loops -/

theorem processLine_files_changed (stats : DiffStats) (l : RawDiffLine) :
    (processLine stats l).1.files_changed = stats.files_changed := by
  simp only [processLine]
  split_ifs <;> rfl

theorem processLines_files_changed (ls : List RawDiffLine) : ∀ stats : DiffStats,
    (processLines stats ls).1.files_changed = stats.files_changed := by
  induction ls with
  | nil => intro stats; rfl
  | cons l ls ih =>
    intro stats
    simp only [processLines]
    rw [ih, processLine_files_changed]

theorem processHunks_files_changed (hs : List RawHunk) : ∀ stats : DiffStats,
    (processHunks stats hs).1.files_changed = stats.files_changed := by
  induction hs with
  | nil => intro stats; rfl
  | cons h hs ih =>
    intro stats
    simp only [processHunks]
    rw [ih, processLines_files_changed]

theorem processDelta_files_changed (ft : Option GitTree) (tt : GitTree)
    (stats : DiffStats) (d : RawDelta) :
    (processDelta ft tt stats d).1.files_changed = stats.files_changed + 1 := by
  cases hp : d.patch <;>
    simp [processDelta, hp, processHunks_files_changed]

theorem processDeltaWT_files_changed (ht : GitTree) (wd : String → Option String)
    (stats : DiffStats) (d : RawDelta) :
    (processDeltaWT ht wd stats d).1.files_changed = stats.files_changed + 1 := by
  cases hp : d.patch <;>
    simp [processDeltaWT, hp, processHunks_files_changed]

theorem processDeltas_count (ft : Option GitTree) (tt : GitTree) (ds : List RawDelta) :
    ∀ stats : DiffStats,
    (processDeltas ft tt stats ds).1.files_changed = stats.files_changed + ds.length
    ∧ (processDeltas ft tt stats ds).2.length = ds.length := by
  induction ds with
  | nil => intro stats; simp [processDeltas]
  | cons d ds ih =>
    intro stats
    simp only [processDeltas, List.length_cons]
    refine ⟨?_, by simp [(ih _).2]⟩
    rw [(ih _).1, processDelta_files_changed]
    omega

theorem processDeltasWT_count (ht : GitTree) (wd : String → Option String) (ds : List RawDelta) :
    ∀ stats : DiffStats,
    (processDeltasWT ht wd stats ds).1.files_changed = stats.files_changed + ds.length
    ∧ (processDeltasWT ht wd stats ds).2.length = ds.length := by
  induction ds with
  | nil => intro stats; simp [processDeltasWT]
  | cons d ds ih =>
    intro stats
    simp only [processDeltasWT, List.length_cons]
    refine ⟨?_, by simp [(ih _).2]⟩
    rw [(ih _).1, processDeltaWT_files_changed]
    omega

theorem processDeltas_unattributed (ft : Option GitTree) (tt : GitTree) (ds : List RawDelta) :
    ∀ (stats : DiffStats) (f : FileDiff), f ∈ (processDeltas ft tt stats ds).2 →
    f.authors = [] ∧ f.biggest_change_author = none := by
  induction ds with
  | nil => intro stats f h; simp [processDeltas] at h
  | cons d ds ih =>
    intro stats f h
    simp only [processDeltas, List.mem_cons] at h
    rcases h with h | h
    · subst h; exact ⟨rfl, rfl⟩
    · exact ih _ _ h

theorem processDeltasWT_unattributed (ht : GitTree) (wd : String → Option String)
    (ds : List RawDelta) :
    ∀ (stats : DiffStats) (f : FileDiff), f ∈ (processDeltasWT ht wd stats ds).2 →
    f.authors = [] ∧ f.biggest_change_author = none := by
  induction ds with
  | nil => intro stats f h; simp [processDeltasWT] at h
  | cons d ds ih =>
    intro stats f h
    simp only [processDeltasWT, List.mem_cons] at h
    rcases h with h | h
    · subst h; exact ⟨rfl, rfl⟩
    · exact ih _ _ h

theorem enrichFiles_length (fa : List (String × List FileAuthorInfo)) (fs : List FileDiff) :
    ∀ acc, (enrichFiles fa fs acc).1.length = fs.length := by
  induction fs with
  | nil => intro acc; rfl
  | cons f fs ih => intro acc; simp [enrichFiles, ih]

theorem enrichFiles_biggest_head (fa : List (String × List FileAuthorInfo)) (fs : List FileDiff) :
    ∀ acc f, (∀ g ∈ fs, g.biggest_change_author = g.authors.head?.map fun a => a.email) →
    f ∈ (enrichFiles fa fs acc).1 →
    f.biggest_change_author = f.authors.head?.map fun a => a.email := by
  induction fs with
  | nil => intro acc f _ hf; simp [enrichFiles] at hf
  | cons g fs ih =>
    intro acc f h hf
    simp only [enrichFiles, List.mem_cons] at hf
    rcases hf with hf | hf
    · subst hf
      simp only [enrichFile]
      split
      · split
        · simp
        · exact h g (List.mem_cons_self g fs)
      · exact h g (List.mem_cons_self g fs)
    · exact ih _ _ (fun g' hg' => h g' (List.mem_cons_of_mem _ hg')) hf

/-! ## Concrete sample data for the diff claims -/

def utf8BadTree : GitTree := ⟨[("f.txt", .blob [255])]⟩

def utf8BadDelta : RawDelta :=
  { status := .modified, old_path := some "f.txt", new_path := some "f.txt",
    is_binary := false, patch := some [] }

def exAuthorA : FileAuthorInfo :=
  { email := "a@x", name := "A", commit_count := 3, last_commit_timestamp := 100 }

def exAuthorB : FileAuthorInfo :=
  { email := "b@x", name := "B", commit_count := 5, last_commit_timestamp := 50 }

/-! ## Claim theorems: diff reconstruction and attribution -/

/-- C6: the attribution sort orders every per-file author list by commit
count descending with ties broken by last-touch timestamp descending (stated
as: the sorted list is a permutation of the input and is sorted for
`authorBefore`); the cited example with A (3 commits, t=100) and B (5
commits, t=50) sorts as `[B, A]`; every list in the attribution result is so
sorted; and every file of a reconstructed diff has its top author equal to
the head of its (sorted) author list. -/
theorem attribution_sort_correct :
    (∀ l : List FileAuthorInfo,
        (sortFileAuthors l).Sorted authorBefore ∧ l.Perm (sortFileAuthors l))
    ∧ sortFileAuthors [exAuthorA, exAuthorB] = [exAuthorB, exAuthorA]
    ∧ (∀ m, ∀ pr ∈ finalizeFileAuthors m, (pr.2).Sorted authorBefore)
    ∧ (∀ fc tc p ft tt ds fa, ∀ f ∈ (getDiffCore fc tc p ft tt ds fa).files,
        f.biggest_change_author = f.authors.head?.map fun a => a.email) := by
  refine ⟨fun l => ⟨List.sorted_insertionSort authorBefore l,
      (List.perm_insertionSort authorBefore l).symm⟩, by decide, ?_, ?_⟩
  · intro m pr hpr
    simp only [finalizeFileAuthors, List.mem_map] at hpr
    obtain ⟨q, _, rfl⟩ := hpr
    exact List.sorted_insertionSort authorBefore q.2
  · intro fc tc p ft tt ds fa f hf
    simp only [getDiffCore] at hf
    refine enrichFiles_biggest_head fa _ _ f (fun g hg => ?_) hf
    obtain ⟨ha, hb⟩ := processDeltas_unattributed ft tt ds _ g hg
    rw [ha, hb]
    rfl

/-- Witness for C6: the concrete example and a concrete reconstructed file. -/
theorem attribution_sort_correct_witness :
    (sortFileAuthors [exAuthorA, exAuthorB]).Sorted authorBefore
    ∧ [exAuthorA, exAuthorB].Perm (sortFileAuthors [exAuthorA, exAuthorB])
    ∧ sortFileAuthors [exAuthorA, exAuthorB] = [exAuthorB, exAuthorA]
    ∧ ((getDiffCore none "t0" none none ⟨[]⟩ [utf8BadDelta]
          [("f.txt", [exAuthorB, exAuthorA])]).files.getD 0 default).biggest_change_author
        = ((getDiffCore none "t0" none none ⟨[]⟩ [utf8BadDelta]
          [("f.txt", [exAuthorB, exAuthorA])]).files.getD 0 default).authors.head?.map
            (fun a => a.email) :=
  ⟨(attribution_sort_correct.1 [exAuthorA, exAuthorB]).1,
   (attribution_sort_correct.1 [exAuthorA, exAuthorB]).2,
   attribution_sort_correct.2.1,
   attribution_sort_correct.2.2.2 none "t0" none none ⟨[]⟩ [utf8BadDelta]
     [("f.txt", [exAuthorB, exAuthorA])] _ (by decide)⟩

/-- C7 counterexample: a non-binary file whose blob is the invalid UTF-8 byte
`0xFF`.  The blob-content helper reports the decode failure as an error, yet
the reconstructed diff response is produced without any error and simply
omits the content (`none`), i.e. the failure is silently swallowed by the
`.ok()` conversions at diff.rs lines 88-104. -/
theorem diff_text_decode_silently_omitted :
    get_blob_content utf8BadTree "f.txt" = .error (.Internal "File is not valid UTF-8")
    ∧ ((getDiffCore none "c0ffee" none (some utf8BadTree) utf8BadTree [utf8BadDelta] []).files.map
        fun f => (f.is_binary, f.old_content, f.new_content)) = [(false, none, none)] := by
  exact ⟨rfl, rfl⟩

/-- C7 (amended): a file marked binary never has its content decoded (old and
new content are omitted); for a textual file the contents are exactly the
`.ok()`-projections of `get_blob_content`, so a fetch or decode failure
yields omitted (`none`) content rather than failing the response, while
`get_blob_content` itself reports a UTF-8 decode failure as an
`Internal` error. -/
theorem diff_content_handling (ft : Option GitTree) (tt : GitTree)
    (stats : DiffStats) (d : RawDelta) :
    (d.is_binary = true →
        (processDelta ft tt stats d).2.old_content = none
        ∧ (processDelta ft tt stats d).2.new_content = none)
    ∧ (d.is_binary = false →
        (processDelta ft tt stats d).2.old_content
          = (d.old_path.bind fun p => ft.bind fun tree => (get_blob_content tree p).toOption)
        ∧ (processDelta ft tt stats d).2.new_content
          = (d.new_path.bind fun p => (get_blob_content tt p).toOption))
    ∧ (∀ p bytes, tt.entries.lookup p = some (.blob bytes) → utf8Decode bytes = none →
        get_blob_content tt p = .error (.Internal "File is not valid UTF-8")) := by
  refine ⟨fun h => ?_, fun h => ?_, fun p bytes h1 h2 => ?_⟩
  · constructor <;> simp [processDelta, h]
  · constructor <;> simp [processDelta, h]
  · simp [get_blob_content, h1, h2]

/-- Witness for C7's amended theorem at the concrete invalid-UTF-8 blob. -/
theorem diff_content_handling_witness :
    ((processDelta (some utf8BadTree) utf8BadTree ⟨0, 0, 0⟩ utf8BadDelta).2.old_content
      = (utf8BadDelta.old_path.bind fun p =>
          (some utf8BadTree).bind fun tree => (get_blob_content tree p).toOption))
    ∧ get_blob_content utf8BadTree "f.txt" = .error (.Internal "File is not valid UTF-8") :=
  ⟨((diff_content_handling (some utf8BadTree) utf8BadTree ⟨0, 0, 0⟩ utf8BadDelta).2.1 rfl).1,
   (diff_content_handling (some utf8BadTree) utf8BadTree ⟨0, 0, 0⟩ utf8BadDelta).2.2
     "f.txt" [255] rfl rfl⟩

/-- C9: every reconstructed diff response, commit-to-commit or working-tree,
satisfies `total_files = filtered_files = files.length = stats.files_changed`;
no input makes `filtered_files` differ from `total_files`. -/
theorem diff_counts_consistent (fc : Option String) (tc : String) (p : Option String)
    (ft : Option GitTree) (tt : GitTree) (ds : List RawDelta)
    (fa : List (String × List FileAuthorInfo)) (ho : String) (pw : Option String)
    (ht : GitTree) (wd : String → Option String) (dsw : List RawDelta) :
    ((getDiffCore fc tc p ft tt ds fa).total_files
        = (getDiffCore fc tc p ft tt ds fa).filtered_files
      ∧ (getDiffCore fc tc p ft tt ds fa).total_files
        = (getDiffCore fc tc p ft tt ds fa).files.length
      ∧ (getDiffCore fc tc p ft tt ds fa).stats.files_changed
        = (getDiffCore fc tc p ft tt ds fa).files.length)
    ∧ ((getWorkingTreeDiffCore ho pw ht wd dsw).total_files
        = (getWorkingTreeDiffCore ho pw ht wd dsw).filtered_files
      ∧ (getWorkingTreeDiffCore ho pw ht wd dsw).total_files
        = (getWorkingTreeDiffCore ho pw ht wd dsw).files.length
      ∧ (getWorkingTreeDiffCore ho pw ht wd dsw).stats.files_changed
        = (getWorkingTreeDiffCore ho pw ht wd dsw).files.length) := by
  refine ⟨⟨rfl, rfl, ?_⟩, ⟨rfl, rfl, ?_⟩⟩
  · simp only [getDiffCore]
    rw [enrichFiles_length, (processDeltas_count ft tt ds _).2,
      (processDeltas_count ft tt ds _).1]
    simp
  · simp only [getWorkingTreeDiffCore]
    rw [(processDeltasWT_count ht wd dsw _).2, (processDeltasWT_count ht wd dsw _).1]
    simp

/-- C10: the working-tree diff performs no author attribution: its
contributor list is empty and every file in its result has an empty author
list and no top author, for every path filter and every input. -/
theorem working_tree_diff_unattributed (ho : String) (pw : Option String)
    (ht : GitTree) (wd : String → Option String) (ds : List RawDelta) :
    (getWorkingTreeDiffCore ho pw ht wd ds).contributors = []
    ∧ ∀ f ∈ (getWorkingTreeDiffCore ho pw ht wd ds).files,
        f.authors = [] ∧ f.biggest_change_author = none := by
  refine ⟨rfl, fun f hf => ?_⟩
  exact processDeltasWT_unattributed ht wd ds _ f hf

/-- Witness for C10 at a concrete one-delta working-tree diff. -/
theorem working_tree_diff_unattributed_witness :
    (getWorkingTreeDiffCore "h0" none ⟨[]⟩ (fun _ => none) [utf8BadDelta]).contributors = []
    ∧ (((getWorkingTreeDiffCore "h0" none ⟨[]⟩ (fun _ => none) [utf8BadDelta]).files.getD 0
          default).authors = []
        ∧ ((getWorkingTreeDiffCore "h0" none ⟨[]⟩ (fun _ => none) [utf8BadDelta]).files.getD 0
          default).biggest_change_author = none) :=
  ⟨(working_tree_diff_unattributed "h0" none ⟨[]⟩ (fun _ => none) [utf8BadDelta]).1,
   (working_tree_diff_unattributed "h0" none ⟨[]⟩ (fun _ => none) [utf8BadDelta]).2 _ (by decide)⟩

end MaGitViewer
